import Mathlib

/-!
# Verification of the sigotorrior task-store core (src/task.rs)

Two layers of shallow embedding:

* **State layer**: the three stores (ready, waiting, completed) as lists of
  records; each per-store operation (`read_tasks`, `write_tasks`, `add_task`,
  `get_by_id`, `delete_by_id`) and each lifecycle operation (`Task.complete`,
  `Task.issue_task_id`, `ReadyTask.wait`, `WaitingTask.back`) is translated
  from `src/task.rs` as a pure function on the state.  `read_tasks` returns
  the store's list and `write_tasks` replaces it, which the storage layer's
  round-trip theorem justifies.

* **Storage layer** (further below): the file system as a map from file names
  to character contents, a JSON codec for task lists modelling the external
  serializer (serde_json), and the temp-file-then-rename write of
  `create_write_tasks_function`.

Rust `u32` ids are modelled as `Nat` (no operation in this file can overflow
a `u32`: `issue_task_id` is bounded by the store cardinality plus one).
-/

namespace Sigo

/-- `ReadyTask { id: u32, description: String }` from src/task.rs. -/
structure ReadyTask where
  id : Nat
  description : String
deriving DecidableEq, Repr

/-- `WaitingTask { id: u32, description: String }` from src/task.rs. -/
structure WaitingTask where
  id : Nat
  description : String
deriving DecidableEq, Repr

/-- `CompletedTask { id: u32, description: String }` from src/task.rs. -/
structure CompletedTask where
  id : Nat
  description : String
deriving DecidableEq, Repr

/-- `enum Task { Ready(ReadyTask), Waiting(WaitingTask), Completed(CompletedTask) }`. -/
inductive Task where
  | Ready (task : ReadyTask)
  | Waiting (task : WaitingTask)
  | Completed (task : CompletedTask)
deriving DecidableEq, Repr

/-- The persisted state: the decoded contents of the three store files
(`ready_tasks`, `waiting_tasks`, `completed_tasks`). -/
structure State where
  ready : List ReadyTask
  waiting : List WaitingTask
  completed : List CompletedTask
deriving DecidableEq, Repr

namespace ReadyTask

/-- `create_read_tasks_function!` for ReadyTask: read the store's list. -/
def read_tasks (s : State) : List ReadyTask := s.ready

/-- `create_write_tasks_function!` for ReadyTask: full-replace write. -/
def write_tasks (s : State) (tasks : List ReadyTask) : State :=
  { s with ready := tasks }

/-- `create_add_task_function!`: read, push, write back. -/
def add_task (s : State) (task : ReadyTask) : State :=
  write_tasks s (read_tasks s ++ [task])

/-- `create_get_by_id_function!`: first record with the given id. -/
def get_by_id (s : State) (i : Nat) : Option ReadyTask :=
  (read_tasks s).find? (fun t => t.id == i)

/-- `create_delete_by_id_function!`: keep the records whose id differs. -/
def delete_by_id (s : State) (i : Nat) : State :=
  write_tasks s ((read_tasks s).filter (fun t => t.id != i))

end ReadyTask

namespace WaitingTask

/-- `create_read_tasks_function!` for WaitingTask. -/
def read_tasks (s : State) : List WaitingTask := s.waiting

/-- `create_write_tasks_function!` for WaitingTask. -/
def write_tasks (s : State) (tasks : List WaitingTask) : State :=
  { s with waiting := tasks }

/-- `create_add_task_function!` for WaitingTask. -/
def add_task (s : State) (task : WaitingTask) : State :=
  write_tasks s (read_tasks s ++ [task])

/-- `create_get_by_id_function!` for WaitingTask. -/
def get_by_id (s : State) (i : Nat) : Option WaitingTask :=
  (read_tasks s).find? (fun t => t.id == i)

/-- `create_delete_by_id_function!` for WaitingTask. -/
def delete_by_id (s : State) (i : Nat) : State :=
  write_tasks s ((read_tasks s).filter (fun t => t.id != i))

/-- `WaitingTask::from_ready`. -/
def from_ready (t : ReadyTask) : WaitingTask :=
  { id := t.id, description := t.description }

end WaitingTask

namespace CompletedTask

/-- `create_read_tasks_function!` for CompletedTask. -/
def read_tasks (s : State) : List CompletedTask := s.completed

/-- `create_write_tasks_function!` for CompletedTask. -/
def write_tasks (s : State) (tasks : List CompletedTask) : State :=
  { s with completed := tasks }

/-- `create_get_by_id_function!` for CompletedTask (the Completed store
exposes no add or delete). -/
def get_by_id (s : State) (i : Nat) : Option CompletedTask :=
  (read_tasks s).find? (fun t => t.id == i)

end CompletedTask

/-- `ReadyTask::from_waiting`. -/
def ReadyTask.from_waiting (t : WaitingTask) : ReadyTask :=
  { id := t.id, description := t.description }

/-- `ReadyTask::wait`: delete self from the Ready store, add the converted
record to the Waiting store. -/
def ReadyTask.wait (t : ReadyTask) (s : State) : State :=
  WaitingTask.add_task (ReadyTask.delete_by_id s t.id) (WaitingTask.from_ready t)

/-- `WaitingTask::back`: delete self from the Waiting store, add the converted
record to the Ready store. -/
def WaitingTask.back (t : WaitingTask) (s : State) : State :=
  ReadyTask.add_task (WaitingTask.delete_by_id s t.id) (ReadyTask.from_waiting t)

namespace Task

/-- `Task::id`. -/
def taskId : Task → Nat
  | .Ready t => t.id
  | .Waiting t => t.id
  | .Completed t => t.id

/-- `Task::get_by_id`: probe Ready, then Waiting, then Completed. -/
def get_by_id (s : State) (i : Nat) : Option Task :=
  match ReadyTask.get_by_id s i with
  | some task => some (Task.Ready task)
  | none =>
    match WaitingTask.get_by_id s i with
    | some task => some (Task.Waiting task)
    | none =>
      match CompletedTask.get_by_id s i with
      | some task => some (Task.Completed task)
      | none => none

/-- `Task::complete`.  Note the source defect kept verbatim: for a `Waiting`
task the removal step reads and filters the **Ready** store (src/task.rs
lines 142-153), not the Waiting store. -/
def complete (t : Task) (s : State) : State :=
  let p : CompletedTask × State :=
    match t with
    | .Ready task =>
      let before_tasks := ReadyTask.read_tasks s
      let after_tasks := before_tasks.filter (fun u => u.id != task.id)
      let s1 := ReadyTask.write_tasks s after_tasks
      ({ id := task.id, description := task.description }, s1)
    | .Waiting task =>
      let before_tasks := ReadyTask.read_tasks s
      let after_tasks := before_tasks.filter (fun u => u.id != task.id)
      let s1 := ReadyTask.write_tasks s after_tasks
      ({ id := task.id, description := task.description }, s1)
    | .Completed task =>
      ({ id := task.id, description := task.description }, s)
  let completed_tasks := CompletedTask.read_tasks p.2
  CompletedTask.write_tasks p.2 (completed_tasks ++ [p.1])

/-- The id set built by `Task::issue_task_id`: the ids of Ready and Waiting
tasks, inserted into a `HashSet` (modelled as a `Finset`). -/
def usingIds (s : State) : Finset Nat :=
  (s.ready.map (fun t => t.id) ++ s.waiting.map (fun t => t.id)).toFinset

/-- `Task::issue_task_id`: first integer in `1..=(card + 1)` not in the used
set; `none` models the `.unwrap()` panic should the search fail (it never
does, see `issue_task_id_isSome`). -/
def issue_task_id (s : State) : Option Nat :=
  let using_ids := usingIds s
  let max_id := using_ids.card + 1
  (List.range' 1 max_id).find? (fun x => decide (x ∉ using_ids))

end Task

/-- `ReadyTask::new`: issue a fresh id, build the record (not persisted). -/
def ReadyTask.new (s : State) (description : String) : Option ReadyTask :=
  (Task.issue_task_id s).map (fun i => { id := i, description := description })

/-- Some record with id `i` sits in the Ready store. -/
def idInReady (s : State) (i : Nat) : Prop := ∃ r ∈ s.ready, r.id = i

/-- Some record with id `i` sits in the Waiting store. -/
def idInWaiting (s : State) (i : Nat) : Prop := ∃ w ∈ s.waiting, w.id = i

/-- Some record with id `i` sits in the Completed store. -/
def idInCompleted (s : State) (i : Nat) : Prop := ∃ c ∈ s.completed, c.id = i

/-- The spec §3 invariant: a given id appears in at most one of the Ready,
Waiting and Completed stores. -/
def idUniqueAcrossStores (s : State) : Prop :=
  ∀ i : Nat,
    (idInReady s i → ¬idInWaiting s i ∧ ¬idInCompleted s i) ∧
    (idInWaiting s i → ¬idInCompleted s i)

/-- The invariant restricted to the live stores: a given id appears in at
most one of the Ready and Waiting stores. -/
def idUniqueReadyWaiting (s : State) : Prop :=
  ∀ i : Nat, idInReady s i → ¬idInWaiting s i

/-! ## Storage layer

`create_write_tasks_function` / `create_read_tasks_function` work on files:
serialize with serde_json, write to a `.sigo-tmp-<pid>` sibling, rename over
the target.  The file system is a map from names to character contents.  The
serializer is external to the repository; `encList`/`decodeList` below model
serde_json's encoding of `Vec<{id: u32, description: String}>` (the derived
`Serialize`/`Deserialize`): a JSON array of objects with keys `id` and
`description`, strings escaped as serde_json emits them. -/

/-- Lower-case hex digit, as serde_json emits in `\u00XX` escapes. -/
def hexDigitChar (n : Nat) : Char :=
  if n < 10 then Char.ofNat (48 + n) else Char.ofNat (87 + n)

/-- serde_json's escaping of one string character: `"` and `\` get a
backslash, the named control escapes are used for 0x08/0x09/0x0A/0x0C/0x0D,
other control characters become `\u00XX`, everything else passes through. -/
def escChar (c : Char) : List Char :=
  if c = '"' then ['\\', '"']
  else if c = '\\' then ['\\', '\\']
  else if c.toNat < 32 then
    if c.toNat = 8 then ['\\', 'b']
    else if c.toNat = 9 then ['\\', 't']
    else if c.toNat = 10 then ['\\', 'n']
    else if c.toNat = 12 then ['\\', 'f']
    else if c.toNat = 13 then ['\\', 'r']
    else ['\\', 'u', '0', '0', hexDigitChar (c.toNat / 16), hexDigitChar (c.toNat % 16)]
  else [c]

/-- A JSON string literal: quote, escaped characters, quote. -/
def encStringChars (s : List Char) : List Char :=
  '"' :: ((s.map escChar).flatten ++ ['"'])

/-- Decimal digits of a number, most significant first, prepended to `acc`. -/
def encNatAux (n : Nat) (acc : List Char) : List Char :=
  if n / 10 = 0 then Char.ofNat (48 + n % 10) :: acc
  else encNatAux (n / 10) (Char.ofNat (48 + n % 10) :: acc)
termination_by n
decreasing_by
  exact Nat.div_lt_self (Nat.pos_of_ne_zero (by omega)) (by omega)

/-- Decimal rendering of a `u32` id. -/
def encNat (n : Nat) : List Char := encNatAux n []

/-- An opening brace (written by code point to keep it out of literals). -/
def lbrace : Char := Char.ofNat 123

/-- A closing brace. -/
def rbrace : Char := Char.ofNat 125

/-- One serialized record: `\x7b"id":<n>,"description":"<escaped>"\x7d`. -/
def encRecord (p : Nat × String) : List Char :=
  lbrace :: ("\"id\":".data ++ encNat p.1 ++ ",\"description\":".data
    ++ encStringChars p.2.data ++ [rbrace])

/-- Comma-separated records. -/
def encItems : List (Nat × String) → List Char
  | [] => []
  | [p] => encRecord p
  | p :: ps => encRecord p ++ ',' :: encItems ps

/-- A serialized task list: a JSON array of records. -/
def encList (l : List (Nat × String)) : List Char :=
  '[' :: (encItems l ++ [']'])

/-- Value of one hex digit (`serde_json` accepts both cases). -/
def hexVal (c : Char) : Option Nat :=
  if 48 ≤ c.toNat ∧ c.toNat ≤ 57 then some (c.toNat - 48)
  else if 97 ≤ c.toNat ∧ c.toNat ≤ 102 then some (c.toNat - 87)
  else if 65 ≤ c.toNat ∧ c.toNat ≤ 70 then some (c.toNat - 55)
  else none

/-- JSON string body parser (after the opening quote): collects characters,
resolving escapes, until the closing quote; `none` on malformed input. -/
def parseStrAux : List Char → Option (List Char × List Char)
  | [] => none
  | '\\' :: 'u' :: h1 :: h2 :: h3 :: h4 :: rest =>
    match hexVal h1, hexVal h2, hexVal h3, hexVal h4 with
    | some a, some b, some c, some d =>
      (parseStrAux rest).map
        (fun p => (Char.ofNat (((a * 16 + b) * 16 + c) * 16 + d) :: p.1, p.2))
    | _, _, _, _ => none
  | '\\' :: e :: rest =>
    if e = '"' then (parseStrAux rest).map (fun p => ('"' :: p.1, p.2))
    else if e = '\\' then (parseStrAux rest).map (fun p => ('\\' :: p.1, p.2))
    else if e = '/' then (parseStrAux rest).map (fun p => ('/' :: p.1, p.2))
    else if e = 'b' then (parseStrAux rest).map (fun p => (Char.ofNat 8 :: p.1, p.2))
    else if e = 't' then (parseStrAux rest).map (fun p => (Char.ofNat 9 :: p.1, p.2))
    else if e = 'n' then (parseStrAux rest).map (fun p => (Char.ofNat 10 :: p.1, p.2))
    else if e = 'f' then (parseStrAux rest).map (fun p => (Char.ofNat 12 :: p.1, p.2))
    else if e = 'r' then (parseStrAux rest).map (fun p => (Char.ofNat 13 :: p.1, p.2))
    else none
  | c :: rest =>
    if c = '"' then some ([], rest)
    else if c = '\\' then none
    else (parseStrAux rest).map (fun p => (c :: p.1, p.2))

/-- ASCII decimal digit test. -/
def isDigitChar (c : Char) : Bool :=
  decide (48 ≤ c.toNat) && decide (c.toNat ≤ 57)

/-- Value of a digit string, most significant first. -/
def digitsVal (l : List Char) : Nat :=
  l.foldl (fun a c => a * 10 + (c.toNat - 48)) 0

/-- Parse a decimal number (at least one digit). -/
def parseNatChars (l : List Char) : Option (Nat × List Char) :=
  match l.takeWhile isDigitChar with
  | [] => none
  | _ :: _ => some (digitsVal (l.takeWhile isDigitChar), l.dropWhile isDigitChar)

/-- Consume an exact literal prefix. -/
def expectChars : List Char → List Char → Option (List Char)
  | [], rest => some rest
  | _ :: _, [] => none
  | p :: ps, c :: rest => if c = p then expectChars ps rest else none

/-- Parse one serialized record. -/
def parseRecord (l : List Char) : Option ((Nat × String) × List Char) :=
  match expectChars (lbrace :: "\"id\":".data) l with
  | none => none
  | some r1 =>
    match parseNatChars r1 with
    | none => none
    | some (n, r2) =>
      match expectChars (",\"description\":".data ++ ['"']) r2 with
      | none => none
      | some r3 =>
        match parseStrAux r3 with
        | none => none
        | some (cs, r4) =>
          match expectChars [rbrace] r4 with
          | none => none
          | some r5 => some ((n, String.mk cs), r5)

/-- Parse one or more comma-separated records up to and including the
closing bracket (fuelled: one unit per record). -/
def parseItems : Nat → List Char → Option (List (Nat × String) × List Char)
  | 0, _ => none
  | fuel + 1, l =>
    match parseRecord l with
    | none => none
    | some (r, rest) =>
      match rest with
      | [] => none
      | c :: rest2 =>
        if c = ']' then some ([r], rest2)
        else if c = ',' then (parseItems fuel rest2).map (fun p => (r :: p.1, p.2))
        else none

/-- Parse a serialized task list (the whole file content). -/
def decodeList (l : List Char) : Option (List (Nat × String)) :=
  match l with
  | '[' :: rest =>
    if rest = [']'] then some []
    else
      match parseItems rest.length rest with
      | some (items, []) => some items
      | _ => none
  | _ => none

/-- The file system: file names to contents.  `none` = no such file. -/
def FS : Type := String → Option (List Char)

/-- Create or truncate a file with the given content. -/
def fsWrite (fs : FS) (name : String) (v : List Char) : FS :=
  fun m => if m = name then some v else fs m

/-- Remove a file (the source side of a rename). -/
def fsRemove (fs : FS) (name : String) : FS :=
  fun m => if m = name then none else fs m

/-- `std::process::id()` rendered in decimal. -/
def pidChars (pid : Nat) : List Char := encNat pid

/-- `path.with_extension(format!("sigo-tmp-{}", std::process::id()))`: the
store file names carry no extension, so this appends `.sigo-tmp-<pid>`. -/
def tmpName (target : String) (pid : Nat) : String :=
  target ++ "." ++ "sigo-tmp-" ++ String.mk (pidChars pid)

/-- After `File::create(&tmp_path)`: the temp file exists, empty. -/
def writeStep1 (fs : FS) (target : String) (pid : Nat) (content : List Char) : FS :=
  fsWrite fs (tmpName target pid) []

/-- After `write_all` + `flush`: the temp file holds the full content. -/
def writeStep2 (fs : FS) (target : String) (pid : Nat) (content : List Char) : FS :=
  fsWrite (writeStep1 fs target pid content) (tmpName target pid) content

/-- After `std::fs::rename(&tmp_path, path)`: atomic publication. -/
def writeStep3 (fs : FS) (target : String) (pid : Nat) (content : List Char) : FS :=
  fsWrite (fsRemove (writeStep2 fs target pid content) (tmpName target pid))
    target content

/-- The file-system states after each effectful step of `write_tasks`. -/
def writeTrace (fs : FS) (target : String) (pid : Nat) (content : List Char) :
    List FS :=
  [writeStep1 fs target pid content, writeStep2 fs target pid content,
   writeStep3 fs target pid content]

/-- `write_tasks` at the file level: serialize, temp-write, rename. -/
def writeTasksFS (fs : FS) (target : String) (pid : Nat)
    (tasks : List (Nat × String)) : FS :=
  writeStep3 fs target pid (encList tasks)

/-- `read_tasks` at the file level: `create_file_if_not_exist` makes a
missing file empty, so a missing file reads as empty content; then
deserialize (`none` models the decode `unwrap` abort — empty content is not
valid JSON, matching the source's behavior on a freshly created file). -/
def readTasksFS (fs : FS) (target : String) : Option (List (Nat × String)) :=
  decodeList ((fs target).getD [])

/-- `ReadyTask::FILE_NAME`. -/
def readyFile : String := "ready_tasks"

/-- `WaitingTask::FILE_NAME`. -/
def waitingFile : String := "waiting_tasks"

/-- `CompletedTask::FILE_NAME`. -/
def completedFile : String := "completed_tasks"

/-- `ReadyTask::read_tasks` on the file system. -/
def readReadyFS (fs : FS) : Option (List ReadyTask) :=
  (readTasksFS fs readyFile).map (List.map (fun p => ⟨p.1, p.2⟩))

/-- `ReadyTask::write_tasks` on the file system. -/
def writeReadyFS (fs : FS) (pid : Nat) (tasks : List ReadyTask) : FS :=
  writeTasksFS fs readyFile pid (tasks.map (fun t => (t.id, t.description)))

/-- `WaitingTask::read_tasks` on the file system. -/
def readWaitingFS (fs : FS) : Option (List WaitingTask) :=
  (readTasksFS fs waitingFile).map (List.map (fun p => ⟨p.1, p.2⟩))

/-- `WaitingTask::write_tasks` on the file system. -/
def writeWaitingFS (fs : FS) (pid : Nat) (tasks : List WaitingTask) : FS :=
  writeTasksFS fs waitingFile pid (tasks.map (fun t => (t.id, t.description)))

/-- `CompletedTask::read_tasks` on the file system. -/
def readCompletedFS (fs : FS) : Option (List CompletedTask) :=
  (readTasksFS fs completedFile).map (List.map (fun p => ⟨p.1, p.2⟩))

/-- `CompletedTask::write_tasks` on the file system. -/
def writeCompletedFS (fs : FS) (pid : Nat) (tasks : List CompletedTask) : FS :=
  writeTasksFS fs completedFile pid (tasks.map (fun t => (t.id, t.description)))

/-- `ReadyTask::add_task` on the file system; `none` = `unwrap` abort. -/
def addReadyFS (fs : FS) (pid : Nat) (task : ReadyTask) : Option FS :=
  (readReadyFS fs).map (fun tasks => writeReadyFS fs pid (tasks ++ [task]))

/-- `WaitingTask::add_task` on the file system. -/
def addWaitingFS (fs : FS) (pid : Nat) (task : WaitingTask) : Option FS :=
  (readWaitingFS fs).map (fun tasks => writeWaitingFS fs pid (tasks ++ [task]))

/-- `ReadyTask::delete_by_id` on the file system. -/
def deleteReadyFS (fs : FS) (pid : Nat) (i : Nat) : Option FS :=
  (readReadyFS fs).map
    (fun tasks => writeReadyFS fs pid (tasks.filter (fun t => t.id != i)))

/-- `WaitingTask::delete_by_id` on the file system. -/
def deleteWaitingFS (fs : FS) (pid : Nat) (i : Nat) : Option FS :=
  (readWaitingFS fs).map
    (fun tasks => writeWaitingFS fs pid (tasks.filter (fun t => t.id != i)))

/-- `ReadyTask::wait` on the file system. -/
def waitFS (fs : FS) (pid : Nat) (t : ReadyTask) : Option FS :=
  (deleteReadyFS fs pid t.id).bind
    (fun fs1 => addWaitingFS fs1 pid (WaitingTask.from_ready t))

/-- `WaitingTask::back` on the file system. -/
def backFS (fs : FS) (pid : Nat) (t : WaitingTask) : Option FS :=
  (deleteWaitingFS fs pid t.id).bind
    (fun fs1 => addReadyFS fs1 pid (ReadyTask.from_waiting t))

/-- `Task::complete` on the file system (the Waiting arm filters the Ready
store, as in the source). -/
def completeFS (fs : FS) (pid : Nat) (t : Task) : Option FS :=
  match t with
  | .Ready task =>
    (readReadyFS fs).bind (fun before =>
      let fs1 := writeReadyFS fs pid (before.filter (fun u => u.id != task.id))
      (readCompletedFS fs1).map (fun cs =>
        writeCompletedFS fs1 pid (cs ++ [⟨task.id, task.description⟩])))
  | .Waiting task =>
    (readReadyFS fs).bind (fun before =>
      let fs1 := writeReadyFS fs pid (before.filter (fun u => u.id != task.id))
      (readCompletedFS fs1).map (fun cs =>
        writeCompletedFS fs1 pid (cs ++ [⟨task.id, task.description⟩])))
  | .Completed task =>
    (readCompletedFS fs).map (fun cs =>
      writeCompletedFS fs pid (cs ++ [⟨task.id, task.description⟩]))

/-! ## State-level lemmas -/

/-- Unfolding `Task::complete` on a Ready task. -/
theorem complete_ready_def (t : ReadyTask) (s : State) :
    Task.complete (Task.Ready t) s =
      ⟨s.ready.filter (fun u => u.id != t.id), s.waiting,
       s.completed ++ [⟨t.id, t.description⟩]⟩ := rfl

/-- Unfolding `Task::complete` on a Waiting task: the removal step filters
the **Ready** store (src/task.rs lines 142-153). -/
theorem complete_waiting_def (t : WaitingTask) (s : State) :
    Task.complete (Task.Waiting t) s =
      ⟨s.ready.filter (fun u => u.id != t.id), s.waiting,
       s.completed ++ [⟨t.id, t.description⟩]⟩ := rfl

/-- Unfolding `Task::complete` on a Completed task: append only. -/
theorem complete_completed_def (t : CompletedTask) (s : State) :
    Task.complete (Task.Completed t) s =
      ⟨s.ready, s.waiting, s.completed ++ [⟨t.id, t.description⟩]⟩ := rfl

/-- C1: completing a Waiting task is claimed to remove its id from the
Waiting store; the code instead filters the Ready store, so on the state
with Waiting = [{1,"a"}] the Waiting store still holds id 1 afterwards,
while a Completed record {1,"a"} is appended. -/
theorem complete_waiting_code_behavior :
    (Task.complete (Task.Waiting ⟨1, "a"⟩) ⟨[], [⟨1, "a"⟩], []⟩).waiting = [⟨1, "a"⟩]
  ∧ (Task.complete (Task.Waiting ⟨1, "a"⟩) ⟨[], [⟨1, "a"⟩], []⟩).completed = [⟨1, "a"⟩]
  ∧ (1 : Nat) ∈ ((Task.complete (Task.Waiting ⟨1, "a"⟩) ⟨[], [⟨1, "a"⟩], []⟩).waiting.map
      (fun t => t.id)) := by
  refine ⟨rfl, rfl, by decide⟩

/-- C4: for every state whose Ready store holds the record {7, "x"},
completing the Ready task {7, "x"} leaves no record with id 7 in the Ready
store and appends the Completed record {7, "x"}. -/
theorem complete_ready_seven (s : State)
    (h : (⟨7, "x"⟩ : ReadyTask) ∈ s.ready) :
    (∀ r ∈ (Task.complete (Task.Ready ⟨7, "x"⟩) s).ready, r.id ≠ 7)
  ∧ (⟨7, "x"⟩ : CompletedTask) ∈ (Task.complete (Task.Ready ⟨7, "x"⟩) s).completed := by
  constructor
  · intro r hr
    rw [complete_ready_def] at hr
    have hp := List.of_mem_filter hr
    simpa using hp
  · rw [complete_ready_def]
    simp

/-- Witness for C4 at the concrete state Ready = [{7, "x"}]. -/
theorem complete_ready_seven_witness :
    ((⟨7, "x"⟩ : ReadyTask) ∈ (⟨[⟨7, "x"⟩], [], []⟩ : State).ready)
  ∧ ((∀ r ∈ (Task.complete (Task.Ready ⟨7, "x"⟩) ⟨[⟨7, "x"⟩], [], []⟩).ready, r.id ≠ 7)
   ∧ (⟨7, "x"⟩ : CompletedTask) ∈
       (Task.complete (Task.Ready ⟨7, "x"⟩) ⟨[⟨7, "x"⟩], [], []⟩).completed) :=
  ⟨by decide, complete_ready_seven ⟨[⟨7, "x"⟩], [], []⟩ (by decide)⟩

/-- A `find?` over `range' s n` that returns `k` found the least element of
the range satisfying the predicate: every `j` with `s ≤ j < k` fails it. -/
theorem find?_range'_least (p : Nat → Bool) :
    ∀ (n s k : Nat), (List.range' s n).find? p = some k →
      p k = true ∧ s ≤ k ∧ ∀ j, s ≤ j → j < k → p j = false := by
  intro n
  induction n with
  | zero => intro s k h; simp at h
  | succ m ih =>
    intro s k h
    rw [List.range'_succ, List.find?_cons] at h
    cases hp : p s with
    | true =>
      rw [hp] at h
      obtain rfl : s = k := by simpa using h
      exact ⟨hp, Nat.le_refl s, fun j hj hjk => absurd (Nat.lt_of_le_of_lt hj hjk)
        (Nat.lt_irrefl s)⟩
    | false =>
      rw [hp] at h
      obtain ⟨hk, hsk, hleast⟩ := ih (s + 1) k h
      refine ⟨hk, Nat.le_of_succ_le hsk, ?_⟩
      intro j hj hjk
      rcases Nat.eq_or_lt_of_le hj with rfl | hj'
      · exact hp
      · exact hleast j hj' hjk

/-- Pigeonhole: among `1..=(card + 1)` some integer escapes `usingIds`. -/
theorem issue_task_id_exists_free (s : State) :
    ∃ x ∈ List.range' 1 ((Task.usingIds s).card + 1), x ∉ Task.usingIds s := by
  by_contra hall
  push_neg at hall
  have hsub : Finset.Icc 1 ((Task.usingIds s).card + 1) ⊆ Task.usingIds s := by
    intro x hx
    rw [Finset.mem_Icc] at hx
    exact hall x (List.mem_range'_1.2 ⟨hx.1, by omega⟩)
  have hcard := Finset.card_le_card hsub
  rw [Nat.card_Icc] at hcard
  omega

/-- `issue_task_id` never hits its `.unwrap()` panic: the bounded search
always finds a free id. -/
theorem issue_task_id_isSome (s : State) : ∃ k, Task.issue_task_id s = some k := by
  obtain ⟨x, hx, hfree⟩ := issue_task_id_exists_free s
  have : (List.find? (fun x => decide (x ∉ Task.usingIds s))
      (List.range' 1 ((Task.usingIds s).card + 1))).isSome = true :=
    List.find?_isSome.2 ⟨x, hx, by simpa using hfree⟩
  obtain ⟨k, hk⟩ := Option.isSome_iff_exists.1 this
  exact ⟨k, hk⟩

/-- What a successful `issue_task_id` returns: a positive id, free of
Ready ∪ Waiting, minimal among such. -/
theorem issue_task_id_some_spec (s : State) (k : Nat)
    (hk : Task.issue_task_id s = some k) :
    1 ≤ k ∧ k ∉ Task.usingIds s ∧
      ∀ j, 1 ≤ j → j ∉ Task.usingIds s → k ≤ j := by
  unfold Task.issue_task_id at hk
  obtain ⟨hpk, h1k, hleast⟩ := find?_range'_least _ _ _ _ hk
  refine ⟨h1k, by simpa using hpk, ?_⟩
  intro j h1j hj
  by_contra hlt
  push_neg at hlt
  have := hleast j h1j hlt
  simp [hj] at this

/-- C2: `issue_task_id` always succeeds; whatever it returns is positive,
unused by Ready ∪ Waiting, and minimal among positive unused ids (searching
`1..=(card + 1)`); and it returns 1 on an empty state, 4 when the used ids
are \x7b1,2,3\x7d, and 1 when they are \x7b2,3\x7d. -/
theorem issue_task_id_spec :
    (∀ s : State, ∃ k, Task.issue_task_id s = some k)
  ∧ (∀ (s : State) (k : Nat), Task.issue_task_id s = some k →
      1 ≤ k ∧ k ∉ Task.usingIds s ∧
      ∀ j, 1 ≤ j → j ∉ Task.usingIds s → k ≤ j)
  ∧ Task.issue_task_id ⟨[], [], []⟩ = some 1
  ∧ Task.issue_task_id ⟨[⟨1, "a"⟩, ⟨2, "b"⟩], [⟨3, "c"⟩], []⟩ = some 4
  ∧ Task.issue_task_id ⟨[⟨2, "a"⟩], [⟨3, "b"⟩], []⟩ = some 1 :=
  ⟨issue_task_id_isSome, issue_task_id_some_spec, by decide, by decide, by decide⟩

/-- Witness for C2 at the used-id set \x7b2,3\x7d: the returned id 1 is
positive, free, and minimal. -/
theorem issue_task_id_spec_witness :
    1 ≤ 1 ∧ (1 : Nat) ∉ Task.usingIds ⟨[⟨2, "a"⟩], [⟨3, "b"⟩], []⟩ ∧
      ∀ j, 1 ≤ j → j ∉ Task.usingIds ⟨[⟨2, "a"⟩], [⟨3, "b"⟩], []⟩ → 1 ≤ j :=
  issue_task_id_spec.2.1 ⟨[⟨2, "a"⟩], [⟨3, "b"⟩], []⟩ 1 (by decide)

/-- C8: completing a Completed task removes nothing from any store and
appends a duplicate Completed record; done twice, it appends twice (no
idempotence). -/
theorem complete_completed_duplicates :
    ∀ (s : State) (t : CompletedTask),
    (Task.complete (Task.Completed t) s).ready = s.ready
  ∧ (Task.complete (Task.Completed t) s).waiting = s.waiting
  ∧ (Task.complete (Task.Completed t) s).completed = s.completed ++ [⟨t.id, t.description⟩]
  ∧ (Task.complete (Task.Completed t) (Task.complete (Task.Completed t) s)).completed
      = s.completed ++ [⟨t.id, t.description⟩, ⟨t.id, t.description⟩] := by
  intro s t
  refine ⟨rfl, rfl, rfl, ?_⟩
  show (s.completed ++ [⟨t.id, t.description⟩]) ++ [⟨t.id, t.description⟩] = _
  simp

/-- Unfolding `ReadyTask::wait`. -/
theorem wait_def (t : ReadyTask) (s : State) :
    ReadyTask.wait t s =
      ⟨s.ready.filter (fun u => u.id != t.id),
       s.waiting ++ [⟨t.id, t.description⟩], s.completed⟩ := rfl

/-- Unfolding `WaitingTask::back`. -/
theorem back_def (t : WaitingTask) (s : State) :
    WaitingTask.back t s =
      ⟨s.ready ++ [⟨t.id, t.description⟩],
       s.waiting.filter (fun u => u.id != t.id), s.completed⟩ := rfl

/-- An empty-store `get_by_id` characterisation: the per-store lookup finds
nothing exactly when no record carries the id. -/
theorem ready_get_by_id_none_iff (s : State) (i : Nat) :
    ReadyTask.get_by_id s i = none ↔ ∀ r ∈ s.ready, r.id ≠ i := by
  simp [ReadyTask.get_by_id, ReadyTask.read_tasks, List.find?_eq_none]

/-- Waiting-store analogue of `ready_get_by_id_none_iff`. -/
theorem waiting_get_by_id_none_iff (s : State) (i : Nat) :
    WaitingTask.get_by_id s i = none ↔ ∀ w ∈ s.waiting, w.id ≠ i := by
  simp [WaitingTask.get_by_id, WaitingTask.read_tasks, List.find?_eq_none]

/-- Completed-store analogue of `ready_get_by_id_none_iff`. -/
theorem completed_get_by_id_none_iff (s : State) (i : Nat) :
    CompletedTask.get_by_id s i = none ↔ ∀ c ∈ s.completed, c.id ≠ i := by
  simp [CompletedTask.get_by_id, CompletedTask.read_tasks, List.find?_eq_none]

/-- C6: `Task::get_by_id` probes Ready, then Waiting, then Completed in that
fixed order, wrapping the first match in the matching variant; it returns
none exactly when no store holds the id (so the Ready match wins when the id
also sits in Completed). -/
theorem get_by_id_probe_order (s : State) (i : Nat) :
    (Task.get_by_id s i = none ↔
      (∀ r ∈ s.ready, r.id ≠ i) ∧ (∀ w ∈ s.waiting, w.id ≠ i) ∧
      (∀ c ∈ s.completed, c.id ≠ i))
  ∧ (∀ t, ReadyTask.get_by_id s i = some t →
      Task.get_by_id s i = some (Task.Ready t))
  ∧ (∀ t, ReadyTask.get_by_id s i = none → WaitingTask.get_by_id s i = some t →
      Task.get_by_id s i = some (Task.Waiting t))
  ∧ (∀ t, ReadyTask.get_by_id s i = none → WaitingTask.get_by_id s i = none →
      CompletedTask.get_by_id s i = some t →
      Task.get_by_id s i = some (Task.Completed t)) := by
  refine ⟨?_, ?_, ?_, ?_⟩
  · rw [← ready_get_by_id_none_iff, ← waiting_get_by_id_none_iff,
      ← completed_get_by_id_none_iff]
    unfold Task.get_by_id
    cases hr : ReadyTask.get_by_id s i <;>
      cases hw : WaitingTask.get_by_id s i <;>
        cases hc : CompletedTask.get_by_id s i <;> simp
  · intro t ht
    unfold Task.get_by_id
    rw [ht]
  · intro t hr hw
    unfold Task.get_by_id
    rw [hr, hw]
  · intro t hr hw hc
    unfold Task.get_by_id
    rw [hr, hw, hc]

/-- Witness for C6: with id 1 in both Ready and Completed, the Ready variant
is returned. -/
theorem get_by_id_probe_order_witness :
    Task.get_by_id ⟨[⟨1, "a"⟩], [], [⟨1, "c"⟩]⟩ 1 = some (Task.Ready ⟨1, "a"⟩) :=
  (get_by_id_probe_order ⟨[⟨1, "a"⟩], [], [⟨1, "c"⟩]⟩ 1).2.1 ⟨1, "a"⟩ (by decide)

/-- Ids of records in either live store land in `usingIds`. -/
theorem mem_usingIds_iff (s : State) (i : Nat) :
    i ∈ Task.usingIds s ↔ idInReady s i ∨ idInWaiting s i := by
  unfold Task.usingIds idInReady idInWaiting
  simp [eq_comm]

/-- C3 counterexample: the state with Completed = [\x7b1,"x"\x7d] satisfies
the three-store uniqueness invariant, `issue_task_id` hands out id 1, and
adding the new Ready task \x7b1,"d"\x7d breaks the invariant: id 1 is now in
both Ready and Completed. -/
theorem id_unique_across_stores_cex :
    idUniqueAcrossStores ⟨[], [], [⟨1, "x"⟩]⟩
  ∧ Task.issue_task_id ⟨[], [], [⟨1, "x"⟩]⟩ = some 1
  ∧ ¬idUniqueAcrossStores (ReadyTask.add_task ⟨[], [], [⟨1, "x"⟩]⟩ ⟨1, "d"⟩) := by
  refine ⟨?_, by decide, ?_⟩
  · intro i
    constructor
    · rintro ⟨r, hr, -⟩
      simp at hr
    · rintro ⟨w, hw, -⟩
      simp at hw
  · intro h
    have h1 := (h 1).1
      ⟨⟨1, "d"⟩, by simp [ReadyTask.add_task, ReadyTask.write_tasks,
        ReadyTask.read_tasks], rfl⟩
    exact h1.2 ⟨⟨1, "x"⟩, by simp [ReadyTask.add_task, ReadyTask.write_tasks,
      ReadyTask.read_tasks], rfl⟩

/-- C3 (amended): every operation preserves uniqueness of an id across the
two live stores (Ready and Waiting): adding a task whose id was issued by
`issue_task_id`, `wait`, `back`, and `complete` on any variant. -/
theorem id_unique_ready_waiting_preserved :
    (∀ (s : State) (i : Nat) (d : String), idUniqueReadyWaiting s →
      Task.issue_task_id s = some i →
      idUniqueReadyWaiting (ReadyTask.add_task s ⟨i, d⟩))
  ∧ (∀ (s : State) (t : ReadyTask), idUniqueReadyWaiting s →
      idUniqueReadyWaiting (ReadyTask.wait t s))
  ∧ (∀ (s : State) (t : WaitingTask), idUniqueReadyWaiting s →
      idUniqueReadyWaiting (WaitingTask.back t s))
  ∧ (∀ (s : State) (t : Task), idUniqueReadyWaiting s →
      idUniqueReadyWaiting (Task.complete t s)) := by
  refine ⟨?_, ?_, ?_, ?_⟩
  · intro s i d hinv hiss j hj
    have hfree : i ∉ Task.usingIds s := (issue_task_id_some_spec s i hiss).2.1
    obtain ⟨r, hr, rfl⟩ := hj
    simp only [ReadyTask.add_task, ReadyTask.write_tasks, ReadyTask.read_tasks,
      List.mem_append, List.mem_singleton] at hr
    rcases hr with hr | rfl
    · exact hinv r.id ⟨r, hr, rfl⟩
    · intro hw
      exact hfree ((mem_usingIds_iff s i).2 (Or.inr hw))
  · intro s t hinv j hj
    rw [wait_def] at hj ⊢
    obtain ⟨r, hr, rfl⟩ := hj
    have hrmem := List.mem_of_mem_filter hr
    have hrne : r.id ≠ t.id := by simpa using List.of_mem_filter hr
    rintro ⟨w, hw, hwid⟩
    simp only [List.mem_append, List.mem_singleton] at hw
    rcases hw with hw | rfl
    · exact hinv r.id ⟨r, hrmem, rfl⟩ ⟨w, hw, hwid⟩
    · exact hrne hwid.symm
  · intro s t hinv j hj
    rw [back_def] at hj ⊢
    obtain ⟨r, hr, rfl⟩ := hj
    simp only [List.mem_append, List.mem_singleton] at hr
    rintro ⟨w, hw, hwid⟩
    have hwmem := List.mem_of_mem_filter hw
    have hwne : w.id ≠ t.id := by simpa using List.of_mem_filter hw
    rcases hr with hr | rfl
    · exact hinv r.id ⟨r, hr, rfl⟩ ⟨w, hwmem, hwid⟩
    · exact hwne hwid
  · intro s t hinv j hj
    cases t with
    | Ready u =>
      rw [complete_ready_def] at hj ⊢
      obtain ⟨r, hr, rfl⟩ := hj
      exact fun hw => hinv r.id ⟨r, List.mem_of_mem_filter hr, rfl⟩ hw
    | Waiting u =>
      rw [complete_waiting_def] at hj ⊢
      obtain ⟨r, hr, rfl⟩ := hj
      exact fun hw => hinv r.id ⟨r, List.mem_of_mem_filter hr, rfl⟩ hw
    | Completed u =>
      rw [complete_completed_def] at hj ⊢
      obtain ⟨r, hr, rfl⟩ := hj
      exact fun hw => hinv r.id ⟨r, hr, rfl⟩ hw

/-- Witness for the amended C3: `wait` on the one-task state keeps the live
stores disjoint. -/
theorem id_unique_ready_waiting_preserved_witness :
    idUniqueReadyWaiting (ReadyTask.wait ⟨1, "a"⟩ ⟨[⟨1, "a"⟩], [], []⟩) :=
  id_unique_ready_waiting_preserved.2.1 ⟨[⟨1, "a"⟩], [], []⟩ ⟨1, "a"⟩
    (fun i _ => by rintro ⟨w, hw, -⟩; simp at hw)

/-- Filtering out the id of a record that occurs exactly once (and is the
only carrier of its id), then appending it back, permutes the list. -/
theorem filter_ne_append_self_perm (t : ReadyTask) :
    ∀ l : List ReadyTask, l.count t = 1 → (∀ r ∈ l, r.id = t.id → r = t) →
      List.Perm (l.filter (fun r => r.id != t.id) ++ [t]) l := by
  intro l
  induction l with
  | nil => intro h; simp at h
  | cons a l ih =>
    intro hcount hid
    by_cases ha : a = t
    · subst ha
      have hnot : a ∉ l := by
        rw [List.count_cons_self] at hcount
        exact List.count_eq_zero.1 (by omega)
      have hfl : l.filter (fun r => r.id != a.id) = l := by
        rw [List.filter_eq_self]
        intro r hr
        have hne : r ≠ a := fun he => hnot (he ▸ hr)
        have : r.id ≠ a.id := fun he => hne (hid r (List.mem_cons_of_mem a hr) he)
        simpa using this
      rw [List.filter_cons_of_neg (by simp), hfl]
      exact List.perm_append_singleton a l
    · have haid : a.id ≠ t.id := fun he => ha (hid a (List.mem_cons_self a l) he)
      have hcount' : l.count t = 1 := by
        rwa [List.count_cons_of_ne (fun he => ha he.symm)] at hcount
      have hid' : ∀ r ∈ l, r.id = t.id → r = t :=
        fun r hr => hid r (List.mem_cons_of_mem a hr)
      rw [List.filter_cons_of_pos (by simpa using haid), List.cons_append]
      exact (ih hcount' hid').cons a

/-- C7: on a state where the Ready record `t` is the unique carrier of its
id in Ready and no Waiting record has that id, `wait` removes `t`'s id from
Ready and puts an identical record in Waiting, and `back` on that Waiting
record restores Waiting exactly and Ready up to order. -/
theorem wait_back_roundtrip (s : State) (t : ReadyTask)
    (hcount : s.ready.count t = 1)
    (hid : ∀ r ∈ s.ready, r.id = t.id → r = t)
    (hw : ∀ w ∈ s.waiting, w.id ≠ t.id) :
    (∀ r ∈ (ReadyTask.wait t s).ready, r.id ≠ t.id)
  ∧ (⟨t.id, t.description⟩ : WaitingTask) ∈ (ReadyTask.wait t s).waiting
  ∧ (WaitingTask.back ⟨t.id, t.description⟩ (ReadyTask.wait t s)).waiting = s.waiting
  ∧ List.Perm (WaitingTask.back ⟨t.id, t.description⟩ (ReadyTask.wait t s)).ready s.ready
  ∧ (WaitingTask.back ⟨t.id, t.description⟩ (ReadyTask.wait t s)).completed
      = s.completed := by
  refine ⟨?_, ?_, ?_, ?_, rfl⟩
  · intro r hr
    rw [wait_def] at hr
    simpa using List.of_mem_filter hr
  · rw [wait_def]
    simp
  · rw [wait_def, back_def]
    show List.filter (fun u => u.id != t.id)
        (s.waiting ++ [(⟨t.id, t.description⟩ : WaitingTask)]) = s.waiting
    rw [List.filter_append]
    have h1 : s.waiting.filter (fun u => u.id != t.id) = s.waiting :=
      List.filter_eq_self.2 (fun w hmem => by simpa using hw w hmem)
    have h2 : ([⟨t.id, t.description⟩] : List WaitingTask).filter
        (fun u => u.id != t.id) = [] := by simp
    rw [h1, h2, List.append_nil]
  · rw [wait_def, back_def]
    show List.Perm (s.ready.filter (fun u => u.id != t.id)
        ++ [ReadyTask.from_waiting ⟨t.id, t.description⟩]) s.ready
    have hback : ReadyTask.from_waiting ⟨t.id, t.description⟩ = t := rfl
    rw [hback]
    exact filter_ne_append_self_perm t s.ready hcount hid

/-- Witness for C7 on the one-task state Ready = [\x7b1,"a"\x7d]. -/
theorem wait_back_roundtrip_witness :
    (∀ r ∈ (ReadyTask.wait ⟨1, "a"⟩ ⟨[⟨1, "a"⟩], [], []⟩).ready, r.id ≠ 1)
  ∧ (⟨1, "a"⟩ : WaitingTask) ∈ (ReadyTask.wait ⟨1, "a"⟩ ⟨[⟨1, "a"⟩], [], []⟩).waiting
  ∧ (WaitingTask.back ⟨1, "a"⟩
      (ReadyTask.wait ⟨1, "a"⟩ ⟨[⟨1, "a"⟩], [], []⟩)).waiting = []
  ∧ List.Perm (WaitingTask.back ⟨1, "a"⟩
      (ReadyTask.wait ⟨1, "a"⟩ ⟨[⟨1, "a"⟩], [], []⟩)).ready [⟨1, "a"⟩]
  ∧ (WaitingTask.back ⟨1, "a"⟩
      (ReadyTask.wait ⟨1, "a"⟩ ⟨[⟨1, "a"⟩], [], []⟩)).completed = [] :=
  wait_back_roundtrip ⟨[⟨1, "a"⟩], [], []⟩ ⟨1, "a"⟩ (by decide) (by decide)
    (by decide)

/-! ## Codec round-trip -/

theorem hexVal_hexDigitChar (m : Nat) (h : m < 16) : hexVal (hexDigitChar m) = some m := by
  interval_cases m <;> decide

theorem parseStrAux_escChar (c : Char) (tail s' r : List Char)
    (htail : parseStrAux tail = some (s', r)) :
    parseStrAux (escChar c ++ tail) = some (c :: s', r) := by
  unfold escChar
  by_cases h1 : c = '"'
  · subst h1; simp [parseStrAux, htail]
  · by_cases h2 : c = '\\'
    · subst h2; simp [parseStrAux, htail]
    · by_cases h3 : c.toNat < 32
      · by_cases h8 : c.toNat = 8
        · have hc : c = Char.ofNat 8 := by rw [← h8, Char.ofNat_toNat]
          simp [h1, h2, h3, h8, parseStrAux, htail]; exact hc.symm
        · by_cases h9 : c.toNat = 9
          · have hc : c = Char.ofNat 9 := by rw [← h9, Char.ofNat_toNat]
            simp [h1, h2, h3, h8, h9, parseStrAux, htail]; exact hc.symm
          · by_cases h10 : c.toNat = 10
            · have hc : c = Char.ofNat 10 := by rw [← h10, Char.ofNat_toNat]
              simp [h1, h2, h3, h8, h9, h10, parseStrAux, htail]; exact hc.symm
            · by_cases h12 : c.toNat = 12
              · have hc : c = Char.ofNat 12 := by rw [← h12, Char.ofNat_toNat]
                simp [h1, h2, h3, h8, h9, h10, h12, parseStrAux, htail]; exact hc.symm
              · by_cases h13 : c.toNat = 13
                · have hc : c = Char.ofNat 13 := by rw [← h13, Char.ofNat_toNat]
                  simp [h1, h2, h3, h8, h9, h10, h12, h13, parseStrAux, htail]; exact hc.symm
                · have hhi : hexVal (hexDigitChar (c.toNat / 16)) = some (c.toNat / 16) :=
                    hexVal_hexDigitChar _ (by omega)
                  have hlo : hexVal (hexDigitChar (c.toNat % 16)) = some (c.toNat % 16) :=
                    hexVal_hexDigitChar _ (by omega)
                  have hz : hexVal '0' = some 0 := rfl
                  have hval : ((0 * 16 + 0) * 16 + c.toNat / 16) * 16 + c.toNat % 16
                      = c.toNat := by omega
                  have hc : Char.ofNat c.toNat = c := Char.ofNat_toNat c
                  simp [h1, h2, h3, h8, h9, h10, h12, h13, parseStrAux, hz, hhi, hlo, htail]
                  rw [show c.toNat / 16 * 16 + c.toNat % 16 = c.toNat by omega]
                  exact hc
      · simp [h1, h2, h3, parseStrAux, htail]

theorem parseStrAux_encString :
    ∀ (s : List Char) (rest : List Char),
      parseStrAux ((s.map escChar).flatten ++ ('"' :: rest)) = some (s, rest) := by
  intro s
  induction s with
  | nil => intro rest; simp [parseStrAux]
  | cons c s ih =>
    intro rest
    rw [List.map_cons, List.flatten_cons, List.append_assoc]
    exact parseStrAux_escChar c _ s rest (ih rest)

theorem expectChars_append : ∀ (p rest : List Char), expectChars p (p ++ rest) = some rest := by
  intro p
  induction p with
  | nil => intro rest; rfl
  | cons a p ih => intro rest; simp [expectChars, ih]

theorem encNatAux_append : ∀ (n : Nat) (acc : List Char),
    encNatAux n acc = encNatAux n [] ++ acc := by
  intro n
  induction n using Nat.strong_induction_on with
  | _ n ih =>
    intro acc
    by_cases h : n / 10 = 0
    · conv_lhs => rw [encNatAux]
      conv_rhs => rw [encNatAux]
      simp [h]
    · conv_lhs => rw [encNatAux]
      conv_rhs => rw [encNatAux]
      rw [if_neg h, if_neg h,
        ih (n / 10) (Nat.div_lt_self (Nat.pos_of_ne_zero (by omega)) (by omega)),
        ih (n / 10) (Nat.div_lt_self (Nat.pos_of_ne_zero (by omega)) (by omega))
          [Char.ofNat (48 + n % 10)]]
      simp

theorem encNat_ne_nil (n : Nat) : encNat n ≠ [] := by
  rw [encNat, encNatAux]
  by_cases h : n / 10 = 0
  · simp [h]
  · rw [if_neg h, encNatAux_append]
    simp

theorem digit_toNat (m : Nat) (h : m < 10) : (Char.ofNat (48 + m)).toNat - 48 = m := by
  interval_cases m <;> decide

theorem digit_isDigit (m : Nat) (h : m < 10) : isDigitChar (Char.ofNat (48 + m)) = true := by
  interval_cases m <;> decide

theorem digitsVal_append (xs : List Char) (d : Char) :
    digitsVal (xs ++ [d]) = digitsVal xs * 10 + (d.toNat - 48) := by
  unfold digitsVal
  rw [List.foldl_append]
  rfl

theorem encNat_shape (n : Nat) :
    encNat n = (if n / 10 = 0 then [] else encNat (n / 10)) ++ [Char.ofNat (48 + n % 10)] := by
  rw [encNat]
  conv_lhs => rw [encNatAux]
  by_cases h : n / 10 = 0
  · simp [h]
  · rw [if_neg h, encNatAux_append, ← encNat, if_neg h]

theorem digitsVal_encNat : ∀ n : Nat, digitsVal (encNat n) = n := by
  intro n
  induction n using Nat.strong_induction_on with
  | _ n ih =>
    rw [encNat_shape, digitsVal_append, digit_toNat (n % 10) (by omega)]
    by_cases h : n / 10 = 0
    · rw [if_pos h]
      show digitsVal [] * 10 + n % 10 = n
      unfold digitsVal
      simp only [List.foldl_nil]
      omega
    · rw [if_neg h,
        ih (n / 10) (Nat.div_lt_self (Nat.pos_of_ne_zero (by omega)) (by omega))]
      omega

theorem encNat_all_digits : ∀ n : Nat, ∀ c ∈ encNat n, isDigitChar c = true := by
  intro n
  induction n using Nat.strong_induction_on with
  | _ n ih =>
    intro c hc
    rw [encNat_shape] at hc
    rcases List.mem_append.1 hc with hc | hc
    · by_cases h : n / 10 = 0
      · rw [if_pos h] at hc
        simp at hc
      · rw [if_neg h] at hc
        exact ih (n / 10) (Nat.div_lt_self (Nat.pos_of_ne_zero (by omega)) (by omega)) c hc
    · simp at hc
      rw [hc]
      exact digit_isDigit (n % 10) (by omega)

theorem takeWhile_all_append (p : Char → Bool) :
    ∀ (xs ys : List Char), (∀ c ∈ xs, p c = true) →
      (xs ++ ys).takeWhile p = xs ++ ys.takeWhile p := by
  intro xs
  induction xs with
  | nil => intro ys h; rfl
  | cons a l ih =>
    intro ys h
    rw [List.cons_append, List.takeWhile_cons, h a (List.mem_cons_self a l),
      ih ys (fun c hc => h c (List.mem_cons_of_mem a hc))]
    rfl

theorem dropWhile_all_append (p : Char → Bool) :
    ∀ (xs ys : List Char), (∀ c ∈ xs, p c = true) →
      (xs ++ ys).dropWhile p = ys.dropWhile p := by
  intro xs
  induction xs with
  | nil => intro ys h; rfl
  | cons a l ih =>
    intro ys h
    rw [List.cons_append, List.dropWhile_cons, h a (List.mem_cons_self a l)]
    exact ih ys (fun c hc => h c (List.mem_cons_of_mem a hc))

theorem dropWhile_eq_self_of_takeWhile_nil (p : Char → Bool) (l : List Char)
    (h : l.takeWhile p = []) : l.dropWhile p = l := by
  cases l with
  | nil => rfl
  | cons a l =>
    rw [List.takeWhile_cons] at h
    rw [List.dropWhile_cons]
    cases hp : p a with
    | true => simp [hp] at h
    | false => simp

theorem parseNatChars_encNat (n : Nat) (rest : List Char)
    (hrest : rest.takeWhile isDigitChar = []) :
    parseNatChars (encNat n ++ rest) = some (n, rest) := by
  have hall := encNat_all_digits n
  have htake : (encNat n ++ rest).takeWhile isDigitChar = encNat n := by
    rw [takeWhile_all_append isDigitChar (encNat n) rest hall, hrest, List.append_nil]
  have hdrop : (encNat n ++ rest).dropWhile isDigitChar = rest := by
    rw [dropWhile_all_append isDigitChar (encNat n) rest hall,
      dropWhile_eq_self_of_takeWhile_nil isDigitChar rest hrest]
  obtain ⟨a, l, he⟩ : ∃ a l, encNat n = a :: l := by
    cases hc : encNat n with
    | nil => exact absurd hc (encNat_ne_nil n)
    | cons a l => exact ⟨a, l, rfl⟩
  unfold parseNatChars
  rw [htake, hdrop, digitsVal_encNat, he]

theorem string_mk_data (s : String) : String.mk s.data = s := by
  obtain ⟨d⟩ := s
  rfl

theorem parseRecord_encRecord (q : Nat × String) (rest : List Char) :
    parseRecord (encRecord q ++ rest) = some (q, rest) := by
  obtain ⟨n, s⟩ := q
  have h1 : encRecord (n, s) ++ rest
      = (lbrace :: "\"id\":".data)
        ++ (encNat n ++ ((",\"description\":".data ++ ['"'])
        ++ ((s.data.map escChar).flatten ++ ('"' :: ([rbrace] ++ rest))))) := by
    simp [encRecord, encStringChars, List.append_assoc]
  rw [parseRecord, h1, expectChars_append]
  dsimp only
  rw [parseNatChars_encNat n _ (by rfl)]
  dsimp only
  rw [expectChars_append]
  dsimp only
  rw [parseStrAux_encString]
  dsimp only
  rw [expectChars_append]

theorem parseItems_encItems :
    ∀ (l : List (Nat × String)) (fuel : Nat) (rest : List Char),
      l ≠ [] → l.length ≤ fuel →
      parseItems fuel (encItems l ++ (']' :: rest)) = some (l, rest) := by
  intro l
  induction l with
  | nil => intro fuel rest hne _; exact absurd rfl hne
  | cons r l ih =>
    intro fuel rest _ hf
    cases l with
    | nil =>
      obtain ⟨f, rfl⟩ : ∃ f, fuel = f + 1 := by
        cases fuel with
        | zero => simp at hf
        | succ f => exact ⟨f, rfl⟩
      show parseItems (f + 1) (encRecord r ++ (']' :: rest)) = some ([r], rest)
      rw [parseItems, parseRecord_encRecord]
      dsimp only
      simp
    | cons r2 l2 =>
      obtain ⟨f, rfl⟩ : ∃ f, fuel = f + 1 := by
        cases fuel with
        | zero => simp at hf
        | succ f => exact ⟨f, rfl⟩
      have hstep : encItems (r :: r2 :: l2) ++ (']' :: rest)
          = encRecord r ++ (',' :: (encItems (r2 :: l2) ++ (']' :: rest))) := by
        show (encRecord r ++ ',' :: encItems (r2 :: l2)) ++ (']' :: rest) = _
        simp [List.append_assoc]
      rw [parseItems, hstep, parseRecord_encRecord]
      dsimp only
      have hih := ih (f) rest (by simp) (by simp at hf ⊢; omega)
      simp [hih]

theorem encItems_length_ge :
    ∀ l : List (Nat × String), l.length ≤ (encItems l).length := by
  intro l
  induction l with
  | nil => simp [encItems]
  | cons r l ih =>
    cases l with
    | nil => simp [encItems, encRecord]
    | cons r2 l2 =>
      show (r :: r2 :: l2).length ≤ (encRecord r ++ ',' :: encItems (r2 :: l2)).length
      simp only [List.length_append, List.length_cons]
      have : 1 ≤ (encRecord r).length := by simp [encRecord]
      simp at ih
      omega

theorem decodeList_encList (l : List (Nat × String)) :
    decodeList (encList l) = some l := by
  cases l with
  | nil => rfl
  | cons r lt =>
    show decodeList ('[' :: (encItems (r :: lt) ++ [']'])) = some (r :: lt)
    rw [decodeList]
    have hne : encItems (r :: lt) ++ [']'] ≠ [']'] := by
      intro he
      have hl := congrArg List.length he
      simp at hl
      have h1 : 1 ≤ (encRecord r).length := by simp [encRecord]
      cases lt with
      | nil => simp [encItems, encRecord] at hl
      | cons r2 l2 =>
        rw [show encItems (r :: r2 :: l2) = encRecord r ++ ',' :: encItems (r2 :: l2)
          from rfl] at hl
        simp at hl
    rw [if_neg hne]
    have hfuel : (r :: lt).length ≤ (encItems (r :: lt) ++ [']']).length := by
      have := encItems_length_ge (r :: lt)
      simp only [List.length_append, List.length_cons]
      simp at this ⊢
      omega
    have hpi := parseItems_encItems (r :: lt) ((encItems (r :: lt) ++ [']']).length) []
      (by simp) hfuel
    rw [hpi]

/-! ## Storage lemmas and claims -/

theorem fsWrite_same (fs : FS) (name : String) (v : List Char) :
    fsWrite fs name v name = some v := by
  simp [fsWrite]

theorem fsWrite_other (fs : FS) (name : String) (v : List Char) (m : String)
    (h : m ≠ name) : fsWrite fs name v m = fs m := by
  simp [fsWrite, h]

theorem fsRemove_same (fs : FS) (name : String) : fsRemove fs name name = none := by
  simp [fsRemove]

theorem fsRemove_other (fs : FS) (name m : String) (h : m ≠ name) :
    fsRemove fs name m = fs m := by
  simp [fsRemove, h]

theorem string_mk_length (l : List Char) : (String.mk l).length = l.length := rfl

theorem pidChars_length_pos (pid : Nat) : 1 ≤ (pidChars pid).length := by
  unfold pidChars
  rw [encNat_shape]
  simp

theorem tmpName_length (target : String) (pid : Nat) :
    (tmpName target pid).length = target.length + 10 + (pidChars pid).length := by
  unfold tmpName
  rw [String.length_append, String.length_append, String.length_append]
  have h1 : ".".length = 1 := rfl
  have h2 : "sigo-tmp-".length = 9 := rfl
  have h3 : (String.mk (pidChars pid)).length = (pidChars pid).length := rfl
  omega

theorem ne_tmpName (a b : String) (pid : Nat) (h : b.length ≤ a.length + 10) :
    b ≠ tmpName a pid := by
  intro he
  have hl := congrArg String.length he
  rw [tmpName_length] at hl
  have := pidChars_length_pos pid
  omega

theorem writeTasksFS_target (fs : FS) (target : String) (pid : Nat)
    (tasks : List (Nat × String)) :
    writeTasksFS fs target pid tasks target = some (encList tasks) := by
  unfold writeTasksFS writeStep3
  exact fsWrite_same _ _ _

theorem readTasksFS_writeTasksFS (fs : FS) (target : String) (pid : Nat)
    (tasks : List (Nat × String)) :
    readTasksFS (writeTasksFS fs target pid tasks) target = some tasks := by
  unfold readTasksFS
  rw [writeTasksFS_target]
  exact decodeList_encList tasks

theorem writeTasksFS_frame (fs : FS) (target : String) (pid : Nat)
    (tasks : List (Nat × String)) (m : String) (h1 : m ≠ target)
    (h2 : m ≠ tmpName target pid) :
    writeTasksFS fs target pid tasks m = fs m := by
  unfold writeTasksFS writeStep3 writeStep2 writeStep1
  rw [fsWrite_other _ _ _ _ h1, fsRemove_other _ _ _ h2, fsWrite_other _ _ _ _ h2,
    fsWrite_other _ _ _ _ h2]

theorem map_pair_mk_ready (L : List ReadyTask) :
    List.map (fun p => (⟨p.1, p.2⟩ : ReadyTask))
      (L.map (fun t => (t.id, t.description))) = L := by
  induction L with
  | nil => rfl
  | cons a l ih => rw [List.map_cons, List.map_cons, ih]

theorem map_pair_mk_waiting (L : List WaitingTask) :
    List.map (fun p => (⟨p.1, p.2⟩ : WaitingTask))
      (L.map (fun t => (t.id, t.description))) = L := by
  induction L with
  | nil => rfl
  | cons a l ih => rw [List.map_cons, List.map_cons, ih]

theorem map_pair_mk_completed (L : List CompletedTask) :
    List.map (fun p => (⟨p.1, p.2⟩ : CompletedTask))
      (L.map (fun t => (t.id, t.description))) = L := by
  induction L with
  | nil => rfl
  | cons a l ih => rw [List.map_cons, List.map_cons, ih]

theorem readReadyFS_writeReadyFS (fs : FS) (pid : Nat) (L : List ReadyTask) :
    readReadyFS (writeReadyFS fs pid L) = some L := by
  unfold readReadyFS writeReadyFS
  rw [readTasksFS_writeTasksFS]
  show some (List.map (fun p => (⟨p.1, p.2⟩ : ReadyTask))
    (L.map (fun t => (t.id, t.description)))) = some L
  rw [map_pair_mk_ready]

theorem readWaitingFS_writeWaitingFS (fs : FS) (pid : Nat) (L : List WaitingTask) :
    readWaitingFS (writeWaitingFS fs pid L) = some L := by
  unfold readWaitingFS writeWaitingFS
  rw [readTasksFS_writeTasksFS]
  show some (List.map (fun p => (⟨p.1, p.2⟩ : WaitingTask))
    (L.map (fun t => (t.id, t.description)))) = some L
  rw [map_pair_mk_waiting]

theorem readCompletedFS_writeCompletedFS (fs : FS) (pid : Nat)
    (L : List CompletedTask) :
    readCompletedFS (writeCompletedFS fs pid L) = some L := by
  unfold readCompletedFS writeCompletedFS
  rw [readTasksFS_writeTasksFS]
  show some (List.map (fun p => (⟨p.1, p.2⟩ : CompletedTask))
    (L.map (fun t => (t.id, t.description)))) = some L
  rw [map_pair_mk_completed]

theorem readWaitingFS_writeReadyFS (fs : FS) (pid : Nat) (L : List ReadyTask) :
    readWaitingFS (writeReadyFS fs pid L) = readWaitingFS fs := by
  unfold readWaitingFS readTasksFS writeReadyFS
  rw [writeTasksFS_frame _ _ _ _ _ (by decide) (ne_tmpName _ _ _ (by decide))]

theorem readReadyFS_writeWaitingFS (fs : FS) (pid : Nat) (L : List WaitingTask) :
    readReadyFS (writeWaitingFS fs pid L) = readReadyFS fs := by
  unfold readReadyFS readTasksFS writeWaitingFS
  rw [writeTasksFS_frame _ _ _ _ _ (by decide) (ne_tmpName _ _ _ (by decide))]

theorem readCompletedFS_writeReadyFS (fs : FS) (pid : Nat) (L : List ReadyTask) :
    readCompletedFS (writeReadyFS fs pid L) = readCompletedFS fs := by
  unfold readCompletedFS readTasksFS writeReadyFS
  rw [writeTasksFS_frame _ _ _ _ _ (by decide) (ne_tmpName _ _ _ (by decide))]

theorem readReadyFS_writeCompletedFS (fs : FS) (pid : Nat)
    (L : List CompletedTask) :
    readReadyFS (writeCompletedFS fs pid L) = readReadyFS fs := by
  unfold readReadyFS readTasksFS writeCompletedFS
  rw [writeTasksFS_frame _ _ _ _ _ (by decide) (ne_tmpName _ _ _ (by decide))]

/-- C5: reading a store right after writing list `L` returns exactly `L`,
for each of the Ready, Waiting and Completed stores (encoding round-trip
fidelity through the serialize + temp-file + rename write). -/
theorem read_after_write_roundtrip :
    ∀ (fs : FS) (pid : Nat),
      (∀ L : List ReadyTask, readReadyFS (writeReadyFS fs pid L) = some L)
    ∧ (∀ L : List WaitingTask, readWaitingFS (writeWaitingFS fs pid L) = some L)
    ∧ (∀ L : List CompletedTask,
        readCompletedFS (writeCompletedFS fs pid L) = some L) :=
  fun fs pid =>
    ⟨readReadyFS_writeReadyFS fs pid, readWaitingFS_writeWaitingFS fs pid,
      readCompletedFS_writeCompletedFS fs pid⟩

/-- C9: `write_tasks` writes the serialized list to the pid-tagged sibling
temp file, then renames it over the target: before the rename the target is
untouched (steps 1 and 2), after it the target holds the full content and
the temp file is gone; every state in the trace shows the target either
with its original content or with the complete new content, never partial. -/
theorem write_tasks_atomic_publication :
    ∀ (fs : FS) (target : String) (pid : Nat) (content : List Char),
      tmpName target pid ≠ target
    ∧ writeStep1 fs target pid content target = fs target
    ∧ writeStep2 fs target pid content target = fs target
    ∧ writeStep1 fs target pid content (tmpName target pid) = some []
    ∧ writeStep2 fs target pid content (tmpName target pid) = some content
    ∧ writeStep3 fs target pid content target = some content
    ∧ writeStep3 fs target pid content (tmpName target pid) = none
    ∧ ∀ g ∈ writeTrace fs target pid content,
        g target = fs target ∨ g target = some content := by
  intro fs target pid content
  have hne : tmpName target pid ≠ target :=
    (ne_tmpName target target pid (by omega)).symm
  have h1 : writeStep1 fs target pid content target = fs target :=
    fsWrite_other _ _ _ _ (Ne.symm hne)
  have h2 : writeStep2 fs target pid content target = fs target := by
    unfold writeStep2
    rw [fsWrite_other _ _ _ _ (Ne.symm hne)]
    exact h1
  have h3 : writeStep3 fs target pid content target = some content :=
    fsWrite_same _ _ _
  refine ⟨hne, h1, h2, fsWrite_same _ _ _, fsWrite_same _ _ _, h3, ?_, ?_⟩
  · unfold writeStep3
    rw [fsWrite_other _ _ _ _ hne, fsRemove_same]
  · intro g hg
    unfold writeTrace at hg
    simp only [List.mem_cons, List.mem_singleton, List.not_mem_nil, or_false] at hg
    rcases hg with rfl | rfl | rfl
    · exact Or.inl h1
    · exact Or.inl h2
    · exact Or.inr h3

/-- C10: the mutating operations return no error value: each either aborts
(`none`, the `unwrap` panic) or returns a file system in which every file it
wrote holds the complete encoding of the fully updated list, which reads
back exactly; so a normal return means the write fully succeeded. -/
theorem mutating_ops_abort_or_succeed :
    (∀ (fs : FS) (target : String) (pid : Nat) (tasks : List (Nat × String)),
        writeTasksFS fs target pid tasks target = some (encList tasks)
      ∧ readTasksFS (writeTasksFS fs target pid tasks) target = some tasks)
  ∧ (∀ (fs : FS) (pid : Nat) (t : ReadyTask) (fs2 : FS),
      addReadyFS fs pid t = some fs2 →
      ∃ old, readReadyFS fs = some old
        ∧ fs2 readyFile
            = some (encList ((old ++ [t]).map (fun u => (u.id, u.description))))
        ∧ readReadyFS fs2 = some (old ++ [t]))
  ∧ (∀ (fs : FS) (pid : Nat) (t : WaitingTask) (fs2 : FS),
      addWaitingFS fs pid t = some fs2 →
      ∃ old, readWaitingFS fs = some old
        ∧ fs2 waitingFile
            = some (encList ((old ++ [t]).map (fun u => (u.id, u.description))))
        ∧ readWaitingFS fs2 = some (old ++ [t]))
  ∧ (∀ (fs : FS) (pid : Nat) (i : Nat) (fs2 : FS),
      deleteReadyFS fs pid i = some fs2 →
      ∃ old, readReadyFS fs = some old
        ∧ readReadyFS fs2 = some (old.filter (fun u => u.id != i)))
  ∧ (∀ (fs : FS) (pid : Nat) (i : Nat) (fs2 : FS),
      deleteWaitingFS fs pid i = some fs2 →
      ∃ old, readWaitingFS fs = some old
        ∧ readWaitingFS fs2 = some (old.filter (fun u => u.id != i)))
  ∧ (∀ (fs : FS) (pid : Nat) (t : ReadyTask) (fs2 : FS),
      waitFS fs pid t = some fs2 →
      ∃ oldR oldW, readReadyFS fs = some oldR ∧ readWaitingFS fs = some oldW
        ∧ readReadyFS fs2 = some (oldR.filter (fun u => u.id != t.id))
        ∧ readWaitingFS fs2 = some (oldW ++ [WaitingTask.from_ready t]))
  ∧ (∀ (fs : FS) (pid : Nat) (t : WaitingTask) (fs2 : FS),
      backFS fs pid t = some fs2 →
      ∃ oldW oldR, readWaitingFS fs = some oldW ∧ readReadyFS fs = some oldR
        ∧ readWaitingFS fs2 = some (oldW.filter (fun u => u.id != t.id))
        ∧ readReadyFS fs2 = some (oldR ++ [ReadyTask.from_waiting t]))
  ∧ (∀ (fs : FS) (pid : Nat) (task : ReadyTask) (fs2 : FS),
      completeFS fs pid (Task.Ready task) = some fs2 →
      ∃ oldR oldC, readReadyFS fs = some oldR ∧ readCompletedFS fs = some oldC
        ∧ readReadyFS fs2 = some (oldR.filter (fun u => u.id != task.id))
        ∧ readCompletedFS fs2 = some (oldC ++ [⟨task.id, task.description⟩]))
  ∧ (∀ (fs : FS) (pid : Nat) (task : WaitingTask) (fs2 : FS),
      completeFS fs pid (Task.Waiting task) = some fs2 →
      ∃ oldR oldC, readReadyFS fs = some oldR ∧ readCompletedFS fs = some oldC
        ∧ readReadyFS fs2 = some (oldR.filter (fun u => u.id != task.id))
        ∧ readCompletedFS fs2 = some (oldC ++ [⟨task.id, task.description⟩]))
  ∧ (∀ (fs : FS) (pid : Nat) (task : CompletedTask) (fs2 : FS),
      completeFS fs pid (Task.Completed task) = some fs2 →
      ∃ oldC, readCompletedFS fs = some oldC
        ∧ readCompletedFS fs2 = some (oldC ++ [⟨task.id, task.description⟩])) := by
  refine ⟨?_, ?_, ?_, ?_, ?_, ?_, ?_, ?_, ?_, ?_⟩
  · intro fs target pid tasks
    exact ⟨writeTasksFS_target fs target pid tasks,
      readTasksFS_writeTasksFS fs target pid tasks⟩
  · intro fs pid t fs2 hadd
    unfold addReadyFS at hadd
    cases hr : readReadyFS fs with
    | none => rw [hr] at hadd; simp at hadd
    | some old =>
      rw [hr] at hadd
      simp only [Option.map_some'] at hadd
      obtain rfl : writeReadyFS fs pid (old ++ [t]) = fs2 := by
        injection hadd
      exact ⟨old, rfl, writeTasksFS_target _ _ _ _,
        readReadyFS_writeReadyFS fs pid (old ++ [t])⟩
  · intro fs pid t fs2 hadd
    unfold addWaitingFS at hadd
    cases hr : readWaitingFS fs with
    | none => rw [hr] at hadd; simp at hadd
    | some old =>
      rw [hr] at hadd
      simp only [Option.map_some'] at hadd
      obtain rfl : writeWaitingFS fs pid (old ++ [t]) = fs2 := by
        injection hadd
      exact ⟨old, rfl, writeTasksFS_target _ _ _ _,
        readWaitingFS_writeWaitingFS fs pid (old ++ [t])⟩
  · intro fs pid i fs2 hdel
    unfold deleteReadyFS at hdel
    cases hr : readReadyFS fs with
    | none => rw [hr] at hdel; simp at hdel
    | some old =>
      rw [hr] at hdel
      simp only [Option.map_some'] at hdel
      obtain rfl : writeReadyFS fs pid (old.filter (fun u => u.id != i)) = fs2 := by
        injection hdel
      exact ⟨old, rfl, readReadyFS_writeReadyFS fs pid _⟩
  · intro fs pid i fs2 hdel
    unfold deleteWaitingFS at hdel
    cases hr : readWaitingFS fs with
    | none => rw [hr] at hdel; simp at hdel
    | some old =>
      rw [hr] at hdel
      simp only [Option.map_some'] at hdel
      obtain rfl : writeWaitingFS fs pid (old.filter (fun u => u.id != i)) = fs2 := by
        injection hdel
      exact ⟨old, rfl, readWaitingFS_writeWaitingFS fs pid _⟩
  · intro fs pid t fs2 hw
    unfold waitFS deleteReadyFS at hw
    cases hr : readReadyFS fs with
    | none => rw [hr] at hw; simp at hw
    | some oldR =>
      rw [hr] at hw
      simp only [Option.map_some', Option.some_bind] at hw
      unfold addWaitingFS at hw
      rw [readWaitingFS_writeReadyFS] at hw
      cases hwold : readWaitingFS fs with
      | none => rw [hwold] at hw; simp at hw
      | some oldW =>
        rw [hwold] at hw
        simp only [Option.map_some'] at hw
        obtain rfl : writeWaitingFS (writeReadyFS fs pid
            (oldR.filter (fun u => u.id != t.id))) pid
            (oldW ++ [WaitingTask.from_ready t]) = fs2 := by
          injection hw
        refine ⟨oldR, oldW, rfl, rfl, ?_, ?_⟩
        · rw [readReadyFS_writeWaitingFS, readReadyFS_writeReadyFS]
        · rw [readWaitingFS_writeWaitingFS]
  · intro fs pid t fs2 hb
    unfold backFS deleteWaitingFS at hb
    cases hr : readWaitingFS fs with
    | none => rw [hr] at hb; simp at hb
    | some oldW =>
      rw [hr] at hb
      simp only [Option.map_some', Option.some_bind] at hb
      unfold addReadyFS at hb
      rw [readReadyFS_writeWaitingFS] at hb
      cases hrold : readReadyFS fs with
      | none => rw [hrold] at hb; simp at hb
      | some oldR =>
        rw [hrold] at hb
        simp only [Option.map_some'] at hb
        obtain rfl : writeReadyFS (writeWaitingFS fs pid
            (oldW.filter (fun u => u.id != t.id))) pid
            (oldR ++ [ReadyTask.from_waiting t]) = fs2 := by
          injection hb
        refine ⟨oldW, oldR, rfl, rfl, ?_, ?_⟩
        · rw [readWaitingFS_writeReadyFS, readWaitingFS_writeWaitingFS]
        · rw [readReadyFS_writeReadyFS]
  · intro fs pid task fs2 hc
    unfold completeFS at hc
    cases hr : readReadyFS fs with
    | none => rw [hr] at hc; simp at hc
    | some oldR =>
      rw [hr] at hc
      simp only [Option.some_bind] at hc
      rw [readCompletedFS_writeReadyFS] at hc
      cases hcold : readCompletedFS fs with
      | none => rw [hcold] at hc; simp at hc
      | some oldC =>
        rw [hcold] at hc
        simp only [Option.map_some'] at hc
        obtain rfl : writeCompletedFS (writeReadyFS fs pid
            (oldR.filter (fun u => u.id != task.id))) pid
            (oldC ++ [⟨task.id, task.description⟩]) = fs2 := by
          injection hc
        refine ⟨oldR, oldC, rfl, rfl, ?_, ?_⟩
        · rw [readReadyFS_writeCompletedFS, readReadyFS_writeReadyFS]
        · rw [readCompletedFS_writeCompletedFS]
  · intro fs pid task fs2 hc
    unfold completeFS at hc
    cases hr : readReadyFS fs with
    | none => rw [hr] at hc; simp at hc
    | some oldR =>
      rw [hr] at hc
      simp only [Option.some_bind] at hc
      rw [readCompletedFS_writeReadyFS] at hc
      cases hcold : readCompletedFS fs with
      | none => rw [hcold] at hc; simp at hc
      | some oldC =>
        rw [hcold] at hc
        simp only [Option.map_some'] at hc
        obtain rfl : writeCompletedFS (writeReadyFS fs pid
            (oldR.filter (fun u => u.id != task.id))) pid
            (oldC ++ [⟨task.id, task.description⟩]) = fs2 := by
          injection hc
        refine ⟨oldR, oldC, rfl, rfl, ?_, ?_⟩
        · rw [readReadyFS_writeCompletedFS, readReadyFS_writeReadyFS]
        · rw [readCompletedFS_writeCompletedFS]
  · intro fs pid task fs2 hc
    unfold completeFS at hc
    cases hcold : readCompletedFS fs with
    | none => rw [hcold] at hc; simp at hc
    | some oldC =>
      rw [hcold] at hc
      simp only [Option.map_some'] at hc
      obtain rfl : writeCompletedFS fs pid
          (oldC ++ [⟨task.id, task.description⟩]) = fs2 := by
        injection hc
      exact ⟨oldC, rfl, readCompletedFS_writeCompletedFS fs pid _⟩

/-- Witness for C10: adding the task \x7b1,"a"\x7d to a file system whose
files all hold the empty list succeeds and fully writes the new encoding. -/
theorem mutating_ops_abort_or_succeed_witness :
    (writeReadyFS (fun _ => some (encList [])) 1
        ([] ++ [⟨1, "a"⟩] : List ReadyTask)) readyFile
        = some (encList (([] ++ [⟨1, "a"⟩] : List ReadyTask).map
            (fun u => (u.id, u.description))))
    ∧ readReadyFS (writeReadyFS (fun _ => some (encList [])) 1
        ([] ++ [⟨1, "a"⟩] : List ReadyTask))
        = some (([] ++ [⟨1, "a"⟩] : List ReadyTask)) := by
  have h0 : readReadyFS (fun _ => some (encList [])) = some [] := rfl
  have hadd : addReadyFS (fun _ => some (encList [])) 1 ⟨1, "a"⟩
      = some (writeReadyFS (fun _ => some (encList [])) 1
          ([] ++ [⟨1, "a"⟩] : List ReadyTask)) := by
    unfold addReadyFS
    rw [h0]
    rfl
  obtain ⟨old, h1, h2, h3⟩ :=
    mutating_ops_abort_or_succeed.2.1 (fun _ => some (encList [])) 1 ⟨1, "a"⟩
      (writeReadyFS (fun _ => some (encList [])) 1
        ([] ++ [⟨1, "a"⟩] : List ReadyTask)) hadd
  rw [h0] at h1
  injection h1 with h1
  subst h1
  exact ⟨h2, h3⟩

end Sigo
